import Mathlib

/-!
Verification development for the UnoDosJS rules engine.

The definitions below are a shallow embedding of the TypeScript sources:
`src/model/deck.ts` (the `Deck` card container) and `src/model/hand.ts`
(the `Hand` state machine).  Decks are lists of cards with the list head
playing the role of the array index 0; JavaScript `Array.shift` becomes
taking the head, `Array.push` becomes appending at the back.  The injected
shuffler is passed explicitly to every operation that reads the stored
`_shuffler` field.  Errors thrown by the source are modelled with
`Except`, and the setup loop of the `Hand` constructor (which is a
genuine `do/while` loop in the source) is modelled with explicit fuel.
-/

namespace UnoDos

/-- The color of a card (`Color` in `deck.ts`). -/
inductive Color where
  | RED | BLUE | GREEN | YELLOW
deriving DecidableEq, Repr

/-- The type of a card (`CardType` in `deck.ts`); `WILDDRAW` stands for
the source string literal WILD DRAW. -/
inductive CardType where
  | NUMBERED | SKIP | REVERSE | DRAW | WILD | WILDDRAW
deriving DecidableEq, Repr

/-- A card (`Card` interface in `deck.ts`): optional fields of the
TypeScript interface become `Option`. -/
structure Card where
  type : CardType
  color : Option Color
  number : Option Nat
deriving DecidableEq, Repr

/-- The list of the four colors in source order (`colors` in `deck.ts`). -/
def colors : List Color := [.RED, .BLUE, .GREEN, .YELLOW]

namespace Deck

/-- `Deck.deal`: `this.cards.shift()` removes and returns the FRONT
element of the backing array. -/
def deal (l : List Card) : Option Card × List Card :=
  (l.head?, l.tail)

/-- `Deck.addToBottom`: `this.cards.push(card)` appends at the back. -/
def addToBottom (c : Card) (l : List Card) : List Card :=
  l ++ [c]

/-- `Deck.top`: `this.cards[this.cards.length - 1]` peeks the BACK
element without removing it. -/
def top (l : List Card) : Option Card :=
  l.getLast?

/-- `Deck.setTopCard`: `this.cards = [card, ...this.cards]` prepends. -/
def setTopCard (c : Card) (l : List Card) : List Card :=
  c :: l

/-- `Deck.size`. -/
def size (l : List Card) : Nat :=
  l.length

end Deck

/-- The numbered cards generated for a single color by
`Deck.createInitialDeck`: one 0 and two each of 1 through 9. -/
def numberedCardsFor (color : Color) : List Card :=
  { type := .NUMBERED, color := some color, number := some 0 } ::
  ((List.range' 1 9).flatMap fun i =>
    [{ type := .NUMBERED, color := some color, number := some i },
     { type := .NUMBERED, color := some color, number := some i }])

/-- The special cards generated for a single color by
`Deck.createInitialDeck`: two each of SKIP, REVERSE, DRAW. -/
def specialCardsFor (color : Color) : List Card :=
  (List.range 2).flatMap fun _ =>
    [{ type := .SKIP, color := some color, number := none },
     { type := .REVERSE, color := some color, number := none },
     { type := .DRAW, color := some color, number := none }]

/-- The four WILD and four WILD DRAW cards of `Deck.createInitialDeck`. -/
def wildCards : List Card :=
  (List.range 4).flatMap fun _ =>
    [{ type := .WILD, color := none, number := none },
     { type := .WILDDRAW, color := none, number := none }]

/-- `Deck.createInitialDeck`: the 108 cards in canonical generation
order (all numbered cards by color, then all specials by color, then
the wilds).  A `new Deck()` with no argument holds exactly this list. -/
def initialDeckCards : List Card :=
  (colors.flatMap numberedCardsFor) ++ (colors.flatMap specialCardsFor) ++ wildCards

/-- A shuffler as stored in the `_shuffler` field: the source mutates
the array in place, modelled as a function from the list to the
permuted list. -/
abbrev Shuf := List Card → List Card

/-- Errors thrown by `Hand` methods. -/
inductive HandError where
  /-- thrown as The hand has ended. -/
  | handEnded
  /-- thrown as Invalid play. -/
  | invalidPlay
  /-- thrown as Must choose a color for wild cards. -/
  | mustChooseColor
  /-- thrown as You cannot choose a color for a numbered card. -/
  | cannotChooseColor
  /-- models the TypeError reached when `hand[cardIndex]` is undefined. -/
  | invalidIndex
  /-- thrown as Invalid player index / Invalid accused player index. -/
  | invalidPlayerIndex
deriving DecidableEq, Repr

/-- The `Hand` state.  `onEndCallbacks` keeps only the number of
registered callbacks; an invocation of every callback with winner `w`
is modelled by appending that many copies of `w` to `emittedEvents`. -/
structure Hand where
  players : List String
  dealer : Nat
  discardPile : List Card
  drawPile : List Card
  playerHands : List (List Card)
  currentPlayerIndex : Nat
  direction : Int
  hasEnded : Bool
  winner : Option Nat
  onEndCallbacks : Nat
  emittedEvents : List Nat
  unoSaid : List Nat
  lastActionByOthers : List Nat
  lastPlayedCard : Option Card
deriving DecidableEq, Repr

/-- The hand of the player currently in turn
(`this.playerHands[this.currentPlayerIndex]`). -/
def currentHand (s : Hand) : List Card :=
  s.playerHands.getD s.currentPlayerIndex []

/-- The index computation of `Hand.nextTurn` and of the accusation
window in `catchUnoFailure`: `(i + direction + n) % n` evaluated in
JavaScript number arithmetic (the argument is nonnegative whenever
`direction` is plus or minus one, so `%` agrees with `Int.emod`). -/
def nextIdx (n : Nat) (i : Nat) (d : Int) : Nat :=
  (((i : Int) + d + n) % n).toNat

/-- `Hand.nextTurn`. -/
def nextTurn (s : Hand) : Hand :=
  { s with currentPlayerIndex := nextIdx s.players.length s.currentPlayerIndex s.direction }

/-- `Hand.isValidPlay`. -/
def isValidPlay (s : Hand) (card : Card) : Bool :=
  match s.lastPlayedCard with
  | none => true
  | some L =>
    if card.type = .WILD ∨ card.type = .WILDDRAW then
      if card.type = .WILDDRAW then
        ! (currentHand s).any (fun c => decide (c.color = L.color))
      else true
    else if card.type = .NUMBERED ∧ L.type = .NUMBERED ∧
            card.number ≠ L.number ∧ card.color ≠ L.color then
      false
    else
      decide (card.color = L.color ∨ card.type = L.type ∨
        (card.type = .NUMBERED ∧ L.type = .NUMBERED ∧ card.number = L.number))

/-- `Hand.canPlayAny`. -/
def canPlayAny (s : Hand) : Bool :=
  (currentHand s).any fun card => isValidPlay s card

/-- `Hand.reshuffleDeck`: `deal()` the discard pile (removing its FRONT
element), move every remaining discard card to the bottom of the draw
pile in order, shuffle the draw pile when nonempty, and rebuild the
discard pile as `new Deck([])` followed by `setTopCard` of the held
card. -/
def reshuffleDeck (sh : Shuf) (s : Hand) : Hand :=
  match Deck.deal s.discardPile with
  | (none, _) =>
    { s with drawPile := if s.drawPile.length > 0 then sh s.drawPile else s.drawPile }
  | (some topCard, rest) =>
    let drawPile1 := rest.foldl (fun acc c => Deck.addToBottom c acc) s.drawPile
    let drawPile2 := if drawPile1.length > 0 then sh drawPile1 else drawPile1
    { s with drawPile := drawPile2, discardPile := Deck.setTopCard topCard [] }

/-- `Hand.drawCards(count)`: deal `count` times to the current player,
skipping an iteration when the draw pile is empty, and reshuffling
whenever the pile becomes empty right after a successful deal. -/
def drawCards (sh : Shuf) : Nat → Hand → Hand
  | 0, s => s
  | n + 1, s =>
    match s.drawPile with
    | [] => drawCards sh n s
    | c :: rest =>
      let s1 := { s with
        drawPile := rest,
        playerHands := s.playerHands.set s.currentPlayerIndex
          (s.playerHands.getD s.currentPlayerIndex [] ++ [c]) }
      let s2 := if s1.drawPile.isEmpty then reshuffleDeck sh s1 else s1
      drawCards sh n s2

/-- `Hand.draw`. -/
def draw (sh : Shuf) (s : Hand) : Except HandError Hand :=
  if s.hasEnded then .error .handEnded
  else
    match s.drawPile with
    | [] => .ok s
    | c :: rest =>
      let s1 := { s with
        drawPile := rest,
        playerHands := s.playerHands.set s.currentPlayerIndex
          (s.playerHands.getD s.currentPlayerIndex [] ++ [c]) }
      let s2 := if s1.drawPile.isEmpty then reshuffleDeck sh s1 else s1
      let s3 := { s2 with
        lastActionByOthers :=
          (List.range s2.players.length).filter (fun i => i ≠ s2.currentPlayerIndex) }
      .ok (if ¬ canPlayAny s3 then nextTurn s3 else s3)

/-- `Hand.applyCardEffect`.  The color write onto a played wild card
(`card.color = chosenColor`) mutates the very object that `play` has
already pushed onto the discard pile and stored in `lastPlayedCard`;
that aliasing is modelled in `play` by recoloring the card before it is
appended, so this function only performs the turn and draw effects. -/
def applyCardEffect (sh : Shuf) (card : Card) (s : Hand) : Hand :=
  let s1 :=
    match card.type with
    | .SKIP => nextTurn s
    | .REVERSE =>
      let t := { s with direction := -s.direction }
      if t.players.length = 2 then nextTurn t else t
    | .DRAW =>
      let t := nextTurn s
      let t2 := if ¬ t.hasEnded then drawCards sh 2 t else t
      nextTurn t2
    | .WILD => s
    | .WILDDRAW =>
      let t := nextTurn s
      let t2 := if ¬ t.hasEnded then drawCards sh 4 t else t
      nextTurn t2
    | .NUMBERED => s
  if card.type ≠ .DRAW ∧ card.type ≠ .WILDDRAW then nextTurn s1 else s1

/-- `Hand.play(cardIndex, chosenColor)`.  Mirrors the source order:
terminated check, card lookup, the three error checks, removal from the
hand and append to the discard pile, the UNO-declaration clearing, then
either the end-of-hand branch (with the DRAW / WILD DRAW carve-out and
the callback invocations) or the card effect. -/
def play (sh : Shuf) (cardIndex : Nat) (chosenColor : Option Color) (s : Hand) :
    Except HandError (Card × Hand) :=
  if s.hasEnded then .error .handEnded
  else
    match (currentHand s)[cardIndex]? with
    | none => .error .invalidIndex
    | some card =>
      if ¬ isValidPlay s card then .error .invalidPlay
      else if (card.type = .WILD ∨ card.type = .WILDDRAW) ∧ chosenColor = none then
        .error .mustChooseColor
      else if card.color.isSome ∧ chosenColor.isSome then
        .error .cannotChooseColor
      else
        let hand1 := (currentHand s).eraseIdx cardIndex
        let willApply : Bool := hand1.length ≠ 0 ∨ card.type = .DRAW ∨ card.type = .WILDDRAW
        let card1 :=
          if ((card.type = .WILD ∨ card.type = .WILDDRAW) ∧ chosenColor.isSome) ∧ willApply then
            { card with color := chosenColor }
          else card
        let s1 := { s with
          playerHands := s.playerHands.set s.currentPlayerIndex hand1,
          discardPile := Deck.addToBottom card1 s.discardPile,
          lastPlayedCard := some card1 }
        let s2 :=
          if hand1.length ≠ 1 then
            { s1 with unoSaid := s1.unoSaid.filter (fun i => i ≠ s1.currentPlayerIndex) }
          else s1
        if hand1.length = 0 then
          let s3 :=
            if card.type = .DRAW ∨ card.type = .WILDDRAW then applyCardEffect sh card1 s2
            else s2
          .ok (card1, { s3 with
            hasEnded := true,
            winner := some s3.currentPlayerIndex,
            emittedEvents :=
              s3.emittedEvents ++ List.replicate s3.onEndCallbacks s3.currentPlayerIndex })
        else
          .ok (card1, applyCardEffect sh card1 s2)

/-- `Hand.sayUno(playerIndex)`. -/
def sayUno (playerIndex : Nat) (s : Hand) : Except HandError Hand :=
  if s.hasEnded then .error .handEnded
  else if playerIndex ≥ s.players.length then .error .invalidPlayerIndex
  else if (s.playerHands.getD playerIndex []).length = 1 ∨
          (s.currentPlayerIndex = playerIndex ∧
            (s.playerHands.getD playerIndex []).length = 2) then
    .ok { s with
      unoSaid := if s.unoSaid.contains playerIndex then s.unoSaid
                 else playerIndex :: s.unoSaid }
  else .ok s

/-- `Hand.catchUnoFailure({accuser, accused})`. -/
def catchUnoFailure (sh : Shuf) (accuser accused : Nat) (s : Hand) :
    Except HandError (Bool × Hand) :=
  if s.hasEnded then .error .handEnded
  else if accused ≥ s.players.length then .error .invalidPlayerIndex
  else
    let nextPlayerIndex := nextIdx s.players.length accused s.direction
    if s.currentPlayerIndex ≠ nextPlayerIndex then .ok (false, s)
    else if (s.playerHands.getD accused []).length = 1 ∧ ¬ s.unoSaid.contains accused then
      let s1 := { s with currentPlayerIndex := accused }
      let s2 := drawCards sh 4 s1
      let s3 := { s2 with
        currentPlayerIndex := s.currentPlayerIndex,
        unoSaid := if s2.unoSaid.contains accused then s2.unoSaid
                   else accused :: s2.unoSaid }
      .ok (true, s3)
    else .ok (false, s)

/-- `Hand.playerInTurn`. -/
def playerInTurn (s : Hand) : Option Nat :=
  if s.hasEnded then none else some s.currentPlayerIndex

/-- The state a caller observes after a `play` call: the new state on
success, the unchanged original state when the source throws. -/
def playResultState (s : Hand) (r : Except HandError (Card × Hand)) : Hand :=
  match r with
  | .ok p => p.2
  | .error _ => s

/-- `Hand.dealInitialCards`: each player in order receives
`cardsPerPlayer` cards dealt from the front of the deck (fewer when the
deck runs out, cards are never lost). -/
def dealInitialCards : Nat → Nat → List Card → List (List Card) × List Card
  | 0, _, deck => ([], deck)
  | n + 1, cardsPerPlayer, deck =>
    let rest := dealInitialCards n cardsPerPlayer (deck.drop cardsPerPlayer)
    (deck.take cardsPerPlayer :: rest.1, rest.2)

/-- The `do/while` setup loop of `Hand.startGame`, with fuel.
`none` means the fuel ran out (the source loop has not terminated yet);
`some (none, pile)` means the loop exited because the pile was empty
(no first card was placed); `some (some f, rest)` means the non-wild
card `f` was found with `rest` remaining in the pile. -/
def setupLoop (sh : Shuf) : Nat → List Card → Option (Option Card × List Card)
  | 0, _ => none
  | fuel + 1, pile =>
    match pile with
    | [] => some (none, [])
    | c :: rest =>
      if c.type = .WILD ∨ c.type = .WILDDRAW then
        setupLoop sh fuel (sh (Deck.addToBottom c rest))
      else some (some c, rest)

/-- The draw pile remaining after the initial deal (the state of the
local `deck` when the constructor assigns `this._drawPile = deck`). -/
def postDealPile (sh : Shuf) (numPlayers cardsPerPlayer : Nat) : List Card :=
  (dealInitialCards numPlayers cardsPerPlayer (sh initialDeckCards)).2

/-- The `Hand` constructor followed by `startGame`, with fuel for the
setup loop.  Note that the placeholder `this._discardPile = new Deck()`
of the constructor is a full fresh 108-card deck; it is only replaced
when the setup loop places a first card. -/
def mkHand (sh : Shuf) (players : List String) (dealer cardsPerPlayer : Nat)
    (onEndCallbacks fuel : Nat) : Option Hand :=
  if players.length < 2 ∨ players.length > 10 then none
  else
    let deck := sh initialDeckCards
    let dealt := dealInitialCards players.length cardsPerPlayer deck
    let base : Hand := {
      players := players
      dealer := dealer
      discardPile := initialDeckCards
      drawPile := dealt.2
      playerHands := dealt.1
      currentPlayerIndex := (dealer + 1) % players.length
      direction := 1
      hasEnded := false
      winner := none
      onEndCallbacks := onEndCallbacks
      emittedEvents := []
      unoSaid := []
      lastActionByOthers := []
      lastPlayedCard := none }
    match setupLoop sh fuel dealt.2 with
    | none => none
    | some (none, pile1) => some { base with drawPile := pile1 }
    | some (some f, rest) =>
      let s0 := { base with
        drawPile := rest
        discardPile := [f]
        lastPlayedCard := some f }
      some (
        if f.type = .REVERSE then
          { s0 with
            direction := -1,
            currentPlayerIndex :=
              (((dealer : Int) - 1 + players.length) % players.length).toNat }
        else if f.type = .SKIP then nextTurn s0
        else if f.type = .DRAW then nextTurn (drawCards sh 2 s0)
        else s0)

/-- Termination of `Hand` construction, expressed through the fuel of
the setup loop: some fuel suffices for the constructor to return. -/
def constructionTerminates (sh : Shuf) (players : List String)
    (dealer cardsPerPlayer : Nat) : Prop :=
  ∃ fuel h, mkHand sh players dealer cardsPerPlayer 0 fuel = some h

/-- The total number of cards held anywhere in a `Hand`: all player
hands plus the draw pile plus the discard pile. -/
def totalCards (s : Hand) : Nat :=
  (s.playerHands.map List.length).sum + s.drawPile.length + s.discardPile.length

/-- Structural well-formedness of a `Hand` state: one hand per player,
the player in turn exists, the direction is plus or minus one, and
there are at least two players. -/
def WF (s : Hand) : Prop :=
  s.playerHands.length = s.players.length ∧
  s.currentPlayerIndex < s.players.length ∧
  (s.direction = 1 ∨ s.direction = -1) ∧
  2 ≤ s.players.length

/-- One successful mutating call on a `Hand` (a failing call throws in
the source and leaves the state untouched, so it produces no new
state). -/
inductive Step (sh : Shuf) : Hand → Hand → Prop where
  | ofDraw (s s' : Hand) : draw sh s = .ok s' → Step sh s s'
  | ofPlay (s s' : Hand) (i : Nat) (col : Option Color) (c : Card) :
      play sh i col s = .ok (c, s') → Step sh s s'
  | ofSayUno (s s' : Hand) (p : Nat) : sayUno p s = .ok s' → Step sh s s'
  | ofCatch (s s' : Hand) (a b : Nat) (r : Bool) :
      catchUnoFailure sh a b s = .ok (r, s') → Step sh s s'

/-- Reachability by any sequence of successful mutating calls. -/
abbrev Reachable (sh : Shuf) : Hand → Hand → Prop :=
  Relation.ReflTransGen (Step sh)

/-- The legality relation exactly as the specification words it, given
the cards `held` by the current player and the last played card `L`:
WILD is always legal; WILD DRAW is legal iff no held card has the color
of `L`; NUMBERED against NUMBERED is legal iff same number or same
color; any other card is legal iff its color matches the color of `L`
or its type matches the type of `L`. -/
def legalSpec (held : List Card) (L card : Card) : Prop :=
  if card.type = .WILD then True
  else if card.type = .WILDDRAW then ¬ ∃ c ∈ held, c.color = L.color
  else if card.type = .NUMBERED ∧ L.type = .NUMBERED then
    card.number = L.number ∨ card.color = L.color
  else card.color = L.color ∨ card.type = L.type

/-- The turn-advance contract of a successful non-ending play that
returned card `c` and moved the state from `s` to the new state `t`:
one step for NUMBERED and WILD; two steps for SKIP; one step in the
flipped direction for REVERSE with three or more players and two steps
for REVERSE with two players; two steps for DRAW and WILD DRAW with the
skipped intermediate player forced to draw 2 or 4 cards whenever the
draw pile holds enough. -/
def PlayAdvanceSpec (s t : Hand) (c : Card) : Prop :=
  t.players = s.players ∧
  ((c.type = .NUMBERED ∨ c.type = .WILD) →
    t.direction = s.direction ∧
    t.currentPlayerIndex = nextIdx s.players.length s.currentPlayerIndex s.direction) ∧
  (c.type = .SKIP →
    t.direction = s.direction ∧
    t.currentPlayerIndex =
      nextIdx s.players.length
        (nextIdx s.players.length s.currentPlayerIndex s.direction) s.direction) ∧
  (c.type = .REVERSE →
    t.direction = -s.direction ∧
    (2 < s.players.length →
      t.currentPlayerIndex = nextIdx s.players.length s.currentPlayerIndex (-s.direction)) ∧
    (s.players.length = 2 →
      t.currentPlayerIndex =
        nextIdx 2 (nextIdx 2 s.currentPlayerIndex (-s.direction)) (-s.direction))) ∧
  (c.type = .DRAW →
    t.direction = s.direction ∧
    t.currentPlayerIndex =
      nextIdx s.players.length
        (nextIdx s.players.length s.currentPlayerIndex s.direction) s.direction ∧
    (2 ≤ s.drawPile.length →
      (t.playerHands.getD (nextIdx s.players.length s.currentPlayerIndex s.direction) []).length =
        (s.playerHands.getD (nextIdx s.players.length s.currentPlayerIndex s.direction) []).length
          + 2)) ∧
  (c.type = .WILDDRAW →
    t.direction = s.direction ∧
    t.currentPlayerIndex =
      nextIdx s.players.length
        (nextIdx s.players.length s.currentPlayerIndex s.direction) s.direction ∧
    (4 ≤ s.drawPile.length →
      (t.playerHands.getD (nextIdx s.players.length s.currentPlayerIndex s.direction) []).length =
        (s.playerHands.getD (nextIdx s.players.length s.currentPlayerIndex s.direction) []).length
          + 4))

/-- The contract of `catchUnoFailure` on an in-progress hand with an
in-range accused player: the call succeeds exactly inside the
accusation window with an unprotected one-card accused; success draws 4
cards for the accused (when the draw pile holds enough), restores the
current player, protects the accused so that a repeated call fails; a
failing call leaves the state unchanged. -/
def CatchUnoSpec (sh : Shuf) (accuser accused : Nat) (s : Hand) : Prop :=
  (∀ b t, catchUnoFailure sh accuser accused s = .ok (b, t) →
    (b = true ↔
      (s.currentPlayerIndex = nextIdx s.players.length accused s.direction ∧
        (s.playerHands.getD accused []).length = 1 ∧
        s.unoSaid.contains accused = false))) ∧
  (∀ t, catchUnoFailure sh accuser accused s = .ok (true, t) →
    t.currentPlayerIndex = s.currentPlayerIndex ∧
    t.unoSaid.contains accused = true ∧
    (4 ≤ s.drawPile.length →
      (t.playerHands.getD accused []).length = (s.playerHands.getD accused []).length + 4) ∧
    (∀ b2 t2, catchUnoFailure sh accuser accused t = .ok (b2, t2) → b2 = false)) ∧
  (∀ t, catchUnoFailure sh accuser accused s = .ok (false, t) → t = s) ∧
  (∃ b t, catchUnoFailure sh accuser accused s = .ok (b, t))

/-- RED 5, one of the concrete cards used in the explicit game traces
below. -/
def red5 : Card := { type := .NUMBERED, color := some .RED, number := some 5 }

/-- RED 7. -/
def red7 : Card := { type := .NUMBERED, color := some .RED, number := some 7 }

/-- BLUE 3. -/
def blue3 : Card := { type := .NUMBERED, color := some .BLUE, number := some 3 }

/-- BLUE 5. -/
def blue5 : Card := { type := .NUMBERED, color := some .BLUE, number := some 5 }

/-- A BLUE DRAW (draw-two) card. -/
def blueDraw : Card := { type := .DRAW, color := some .BLUE, number := none }

/-- GREEN 1. -/
def green1 : Card := { type := .NUMBERED, color := some .GREEN, number := some 1 }

/-- YELLOW 1. -/
def yellow1 : Card := { type := .NUMBERED, color := some .YELLOW, number := some 1 }

/-- The initial deck with one copy each of RED 7, RED 5 and BLUE 3
removed; scaffolding for the permutation `crafted1`. -/
def base1 : List Card := ((initialDeckCards.erase red7).erase red5).erase blue3

/-- A permutation of the initial deck for a two-player game with 53
cards per player: player 1 receives RED 7 first, the setup card is
RED 5, and one BLUE 3 remains in the draw pile. -/
def crafted1 : List Card := base1.take 53 ++ red7 :: (base1.drop 53 ++ [red5, blue3])

/-- A deterministic shuffler producing `crafted1` on the full deck and
leaving any other pile unchanged. -/
def craftSh1 : Shuf := fun l => if l.length = 108 then crafted1 else l

/-- The initial deck with one copy each of BLUE DRAW, GREEN 1, YELLOW 1
and BLUE 5 removed; scaffolding for the permutation `crafted4`. -/
def base4 : List Card :=
  (((initialDeckCards.erase blueDraw).erase green1).erase yellow1).erase blue5

/-- A permutation of the initial deck for a three-player game with one
card per player: the players receive BLUE DRAW, GREEN 1 and YELLOW 1,
and the setup card is BLUE 5. -/
def crafted4 : List Card := [blueDraw, green1, yellow1, blue5] ++ base4

/-- A deterministic shuffler producing `crafted4` on the full deck and
leaving any other pile unchanged. -/
def craftSh4 : Shuf := fun l => if l.length = 108 then crafted4 else l

/-- A trivial placeholder hand used as the default of `Option.getD`. -/
def dummyHand : Hand := {
  players := []
  dealer := 0
  discardPile := []
  drawPile := []
  playerHands := []
  currentPlayerIndex := 0
  direction := 1
  hasEnded := false
  winner := none
  onEndCallbacks := 0
  emittedEvents := []
  unoSaid := []
  lastActionByOthers := []
  lastPlayedCard := none }

/-- A small concrete in-progress two-player hand used by the witnesses:
player 0 is in turn holding RED 7 and BLUE DRAW against a RED 5 discard
top, player 1 holds a single card and has not said UNO, and the draw
pile holds five cards. -/
def wHand : Hand := {
  players := ["A", "B"]
  dealer := 0
  discardPile := [red5]
  drawPile := [blue3, blue3, blue3, blue3, green1]
  playerHands := [[red7, blueDraw], [yellow1]]
  currentPlayerIndex := 0
  direction := 1
  hasEnded := false
  winner := none
  onEndCallbacks := 0
  emittedEvents := []
  unoSaid := []
  lastActionByOthers := []
  lastPlayedCard := some red5 }

/-- `wHand` marked as ended, a concrete terminal state. -/
def wEndedHand : Hand := { wHand with hasEnded := true }

/-- The hand built by the constructor for the default configuration
with the identity shuffler. -/
def wH0 : Hand := (mkHand id ["A", "B"] 0 7 0 1).getD dummyHand

/-- The card and state produced by the witness play on `wHand`. -/
def wC6res : Card × Hand := (play id 0 none wHand).toOption.getD (red5, dummyHand)

/-! ### Arithmetic facts about the turn index -/

theorem nextIdx_lt (n i : Nat) (d : Int) (hn : 0 < n) : nextIdx n i d < n := by
  unfold nextIdx
  have h1 : (0 : Int) < n := by exact_mod_cast hn
  have h2 := Int.emod_lt_of_pos ((i : Int) + d + n) h1
  have h3 := @Int.emod_nonneg ((i : Int) + d + n) n (by omega)
  omega

theorem nextIdx_ne (n i : Nat) (d : Int) (hd : d = 1 ∨ d = -1) (hi : i < n)
    (hn : 2 ≤ n) : nextIdx n i d ≠ i := by
  have h1 : (0 : Int) < n := by exact_mod_cast (by omega : 0 < n)
  rcases hd with rfl | rfl
  · unfold nextIdx
    have he : ((i : Int) + 1 + n) % n = ((i : Int) + 1) % n := by
      simpa using Int.add_mul_emod_self_left ((i : Int) + 1) n 1
    rcases Nat.lt_or_ge (i + 1) n with hlt | hge
    · have : ((i : Int) + 1) % n = (i : Int) + 1 :=
        Int.emod_eq_of_lt (by omega) (by exact_mod_cast hlt)
      rw [he, this]; omega
    · have hieq : i + 1 = n := by omega
      have : ((i : Int) + 1) % n = 0 := by
        have : ((i : Int) + 1) = n := by exact_mod_cast hieq
        rw [this, Int.emod_self]
      rw [he, this]; omega
  · unfold nextIdx
    rcases Nat.eq_zero_or_pos i with rfl | hipos
    · simp only [Nat.cast_zero]
      have : ((0 : Int) + -1 + n) % n = (n : Int) - 1 :=
        Int.emod_eq_of_lt (by omega) (by omega)
      rw [this]; omega
    · have he : ((i : Int) + -1 + n) % n = ((i : Int) - 1) % n := by
        have : ((i : Int) + -1 + n) = ((i : Int) - 1) + n := by ring
        rw [this]
        simpa using Int.add_mul_emod_self_left ((i : Int) - 1) n 1
      have : ((i : Int) - 1) % n = (i : Int) - 1 :=
        Int.emod_eq_of_lt (by omega) (by push_cast; omega)
      rw [he, this]; omega

/-! ### List bookkeeping lemmas -/

theorem getD_set_self (hs : List (List Card)) (i : Nat) (v : List Card)
    (h : i < hs.length) : (hs.set i v).getD i [] = v := by
  simp [List.getD_eq_getElem?_getD, List.getElem?_set_self, h]

theorem getD_set_other (hs : List (List Card)) (i j : Nat) (v : List Card)
    (h : j ≠ i) : (hs.set i v).getD j [] = hs.getD j [] := by
  simp [List.getD_eq_getElem?_getD, List.getElem?_set_ne (Ne.symm h)]

theorem sum_map_length_set_append (hs : List (List Card)) (i : Nat) (c : Card)
    (h : i < hs.length) :
    ((hs.set i (hs.getD i [] ++ [c])).map List.length).sum
      = (hs.map List.length).sum + 1 := by
  induction hs generalizing i with
  | nil => simp at h
  | cons hd tl ih =>
    cases i with
    | zero => simp [List.getD_cons_zero]; omega
    | succ i =>
      simp only [List.getD_cons_succ, List.set_cons_succ, List.map_cons, List.sum_cons]
      rw [ih i (by simpa using h)]
      omega

theorem sum_map_length_set_eraseIdx (hs : List (List Card)) (i j : Nat)
    (hi : i < hs.length) (hj : j < (hs.getD i []).length) :
    ((hs.set i ((hs.getD i []).eraseIdx j)).map List.length).sum + 1
      = (hs.map List.length).sum := by
  induction hs generalizing i with
  | nil => simp at hi
  | cons hd tl ih =>
    cases i with
    | zero =>
      simp only [List.getD_cons_zero] at hj ⊢
      simp [List.length_eraseIdx, hj]
      omega
    | succ i =>
      simp only [List.getD_cons_succ] at hj ⊢
      simp only [List.set_cons_succ, List.map_cons, List.sum_cons]
      rw [← ih i (by simpa using hi) hj]
      omega

theorem foldl_addToBottom (l acc : List Card) :
    l.foldl (fun a c => Deck.addToBottom c a) acc = acc ++ l := by
  induction l generalizing acc with
  | nil => simp
  | cons c rest ih =>
    rw [List.foldl_cons, ih]
    simp [Deck.addToBottom]

/-! ### Preservation facts for reshuffleDeck -/

theorem reshuffleDeck_core (sh : Shuf) (s : Hand) :
    (reshuffleDeck sh s).players = s.players ∧
    (reshuffleDeck sh s).playerHands = s.playerHands ∧
    (reshuffleDeck sh s).currentPlayerIndex = s.currentPlayerIndex ∧
    (reshuffleDeck sh s).direction = s.direction ∧
    (reshuffleDeck sh s).hasEnded = s.hasEnded ∧
    (reshuffleDeck sh s).unoSaid = s.unoSaid ∧
    (reshuffleDeck sh s).lastPlayedCard = s.lastPlayedCard := by
  cases hd : s.discardPile <;> simp [reshuffleDeck, Deck.deal, hd]

theorem reshuffleDeck_total (sh : Shuf) (s : Hand)
    (HLen : ∀ l, (sh l).length = l.length) :
    totalCards (reshuffleDeck sh s) = totalCards s := by
  cases hd : s.discardPile with
  | nil =>
    simp only [reshuffleDeck, Deck.deal, hd, List.head?_nil, List.tail_nil, totalCards]
    split <;> simp [HLen]
  | cons top rest =>
    simp only [reshuffleDeck, Deck.deal, hd, List.head?_cons, List.tail_cons, totalCards,
      foldl_addToBottom, Deck.setTopCard]
    split <;> simp [HLen, hd] <;> omega

theorem reshuffleDeck_discard_single (sh : Shuf) (s : Hand) (f : Card)
    (hd : s.discardPile = [f]) :
    (reshuffleDeck sh s).discardPile = [f] := by
  simp [reshuffleDeck, Deck.deal, hd, Deck.setTopCard]

/-! ### Preservation facts for drawCards -/

theorem drawCards_core (sh : Shuf) :
    ∀ (k : Nat) (s : Hand),
      (drawCards sh k s).players = s.players ∧
      (drawCards sh k s).playerHands.length = s.playerHands.length ∧
      (drawCards sh k s).currentPlayerIndex = s.currentPlayerIndex ∧
      (drawCards sh k s).direction = s.direction ∧
      (drawCards sh k s).hasEnded = s.hasEnded ∧
      (drawCards sh k s).unoSaid = s.unoSaid ∧
      (drawCards sh k s).lastPlayedCard = s.lastPlayedCard := by
  intro k
  induction k with
  | zero => intro s; exact ⟨rfl, rfl, rfl, rfl, rfl, rfl, rfl⟩
  | succ k ih =>
    intro s
    rw [drawCards]
    cases hd : s.drawPile with
    | nil => exact ih s
    | cons c rest =>
      simp only
      split
      · rcases ih (reshuffleDeck sh { s with
          drawPile := rest,
          playerHands := s.playerHands.set s.currentPlayerIndex
            (s.playerHands.getD s.currentPlayerIndex [] ++ [c]) }) with
          ⟨p1, p2, p3, p4, p5, p6, p7⟩
        rcases reshuffleDeck_core sh { s with
          drawPile := rest,
          playerHands := s.playerHands.set s.currentPlayerIndex
            (s.playerHands.getD s.currentPlayerIndex [] ++ [c]) } with
          ⟨q1, q2, q3, q4, q5, q6, q7⟩
        refine ⟨?_, ?_, ?_, ?_, ?_, ?_, ?_⟩ <;>
          simp_all [List.length_set]
      · rcases ih { s with
          drawPile := rest,
          playerHands := s.playerHands.set s.currentPlayerIndex
            (s.playerHands.getD s.currentPlayerIndex [] ++ [c]) } with
          ⟨p1, p2, p3, p4, p5, p6, p7⟩
        refine ⟨?_, ?_, ?_, ?_, ?_, ?_, ?_⟩ <;>
          simp_all [List.length_set]

theorem drawCards_total (sh : Shuf) (HLen : ∀ l, (sh l).length = l.length) :
    ∀ (k : Nat) (s : Hand), s.currentPlayerIndex < s.playerHands.length →
      totalCards (drawCards sh k s) = totalCards s := by
  intro k
  induction k with
  | zero => intro s _; rfl
  | succ k ih =>
    intro s hcur
    rw [drawCards]
    cases hd : s.drawPile with
    | nil => exact ih s hcur
    | cons c rest =>
      simp only
      have htot : totalCards { s with
          drawPile := rest,
          playerHands := s.playerHands.set s.currentPlayerIndex
            (s.playerHands.getD s.currentPlayerIndex [] ++ [c]) } = totalCards s := by
        simp only [totalCards]
        rw [sum_map_length_set_append s.playerHands s.currentPlayerIndex c hcur, hd]
        simp only [List.length_cons]
        omega
      split
      · rw [ih _ (by
          rcases reshuffleDeck_core sh { s with
            drawPile := rest,
            playerHands := s.playerHands.set s.currentPlayerIndex
              (s.playerHands.getD s.currentPlayerIndex [] ++ [c]) } with ⟨_, q2, q3, _⟩
          rw [q2, q3]
          simpa using hcur)]
        rw [reshuffleDeck_total sh _ HLen, htot]
      · rw [ih _ (by simpa using hcur), htot]

theorem drawCards_hand_growth (sh : Shuf) :
    ∀ (k : Nat) (s : Hand), s.currentPlayerIndex < s.playerHands.length →
      k ≤ s.drawPile.length →
      ((drawCards sh k s).playerHands.getD s.currentPlayerIndex []).length
        = (s.playerHands.getD s.currentPlayerIndex []).length + k := by
  intro k
  induction k with
  | zero => intro s _ _; rfl
  | succ k ih =>
    intro s hcur hk
    rw [drawCards]
    cases hd : s.drawPile with
    | nil => rw [hd] at hk; simp at hk
    | cons c rest =>
      rw [hd] at hk
      simp only [List.length_cons] at hk
      simp only
      split
      · rename_i hempty
        have hrest : rest = [] := by simpa [List.isEmpty_iff] using hempty
        subst hrest
        simp only [List.length_nil] at hk
        have hk0 : k = 0 := by omega
        subst hk0
        rw [drawCards]
        rcases reshuffleDeck_core sh { s with
          drawPile := [],
          playerHands := s.playerHands.set s.currentPlayerIndex
            (s.playerHands.getD s.currentPlayerIndex [] ++ [c]) } with ⟨_, _, q3, _⟩
        have q2 : (reshuffleDeck sh { s with
          drawPile := [],
          playerHands := s.playerHands.set s.currentPlayerIndex
            (s.playerHands.getD s.currentPlayerIndex [] ++ [c]) }).playerHands
            = s.playerHands.set s.currentPlayerIndex
              (s.playerHands.getD s.currentPlayerIndex [] ++ [c]) :=
          (reshuffleDeck_core sh _).2.1
        rw [q2]
        rw [getD_set_self _ _ _ hcur]
        simp
      · rw [ih _ (by simpa using hcur) (by simpa using hk)]
        simp only
        rw [getD_set_self _ _ _ hcur]
        simp only [List.length_append, List.length_cons, List.length_nil]
        omega

theorem drawCards_discard_single (sh : Shuf) :
    ∀ (k : Nat) (s : Hand) (f : Card), s.discardPile = [f] →
      (drawCards sh k s).discardPile = [f] := by
  intro k
  induction k with
  | zero => intro s f hd; exact hd
  | succ k ih =>
    intro s f hd
    rw [drawCards]
    cases hp : s.drawPile with
    | nil => exact ih s f hd
    | cons c rest =>
      simp only
      split
      · exact ih _ f (reshuffleDeck_discard_single sh _ f hd)
      · exact ih _ f hd

/-! ### Well-formedness and conservation for each operation -/

theorem nextTurn_WF (s : Hand) (h : WF s) : WF (nextTurn s) := by
  obtain ⟨h1, h2, h3, h4⟩ := h
  exact ⟨h1, nextIdx_lt _ _ _ (by omega), h3, h4⟩

theorem totalCards_nextTurn (s : Hand) : totalCards (nextTurn s) = totalCards s := rfl

theorem drawCards_WF (sh : Shuf) (k : Nat) (s : Hand) (h : WF s) :
    WF (drawCards sh k s) := by
  rcases drawCards_core sh k s with ⟨p1, p2, p3, p4, _⟩
  obtain ⟨h1, h2, h3, h4⟩ := h
  exact ⟨by rw [p2, p1, h1], by rw [p3, p1]; exact h2, by rw [p4]; exact h3,
    by rw [p1]; exact h4⟩

theorem applyCardEffect_preserves (sh : Shuf) (card : Card) (s : Hand)
    (HLen : ∀ l, (sh l).length = l.length) (hWF : WF s) :
    WF (applyCardEffect sh card s) ∧
      totalCards (applyCardEffect sh card s) = totalCards s := by
  have h1 := hWF.1
  have h2 := hWF.2.1
  have h4 := hWF.2.2.2
  obtain ⟨ct, cc, cn⟩ := card
  cases ct with
  | SKIP =>
    show WF (nextTurn (nextTurn s)) ∧ totalCards (nextTurn (nextTurn s)) = totalCards s
    exact ⟨nextTurn_WF _ (nextTurn_WF _ hWF), rfl⟩
  | NUMBERED =>
    show WF (nextTurn s) ∧ totalCards (nextTurn s) = totalCards s
    exact ⟨nextTurn_WF _ hWF, rfl⟩
  | WILD =>
    show WF (nextTurn s) ∧ totalCards (nextTurn s) = totalCards s
    exact ⟨nextTurn_WF _ hWF, rfl⟩
  | REVERSE =>
    have hWFr : WF { s with direction := -s.direction } := by
      refine ⟨h1, h2, ?_, h4⟩
      rcases hWF.2.2.1 with hv | hv <;> rw [hv] <;> simp
    show WF (nextTurn
        (if ({ s with direction := -s.direction } : Hand).players.length = 2 then
          nextTurn { s with direction := -s.direction }
        else { s with direction := -s.direction })) ∧
      totalCards (nextTurn
        (if ({ s with direction := -s.direction } : Hand).players.length = 2 then
          nextTurn { s with direction := -s.direction }
        else { s with direction := -s.direction })) = totalCards s
    split
    · exact ⟨nextTurn_WF _ (nextTurn_WF _ hWFr), rfl⟩
    · exact ⟨nextTurn_WF _ hWFr, rfl⟩
  | DRAW =>
    have hWFn : WF (nextTurn s) := nextTurn_WF _ hWF
    show WF (nextTurn
        (if ¬ (nextTurn s).hasEnded = true then drawCards sh 2 (nextTurn s)
          else nextTurn s)) ∧
      totalCards (nextTurn
        (if ¬ (nextTurn s).hasEnded = true then drawCards sh 2 (nextTurn s)
          else nextTurn s)) = totalCards s
    split
    · refine ⟨nextTurn_WF _ (drawCards_WF sh 2 _ hWFn), ?_⟩
      rw [totalCards_nextTurn,
        drawCards_total sh HLen 2 _ (by rw [hWFn.1]; exact hWFn.2.1),
        totalCards_nextTurn]
    · exact ⟨nextTurn_WF _ hWFn, rfl⟩
  | WILDDRAW =>
    have hWFn : WF (nextTurn s) := nextTurn_WF _ hWF
    show WF (nextTurn
        (if ¬ (nextTurn s).hasEnded = true then drawCards sh 4 (nextTurn s)
          else nextTurn s)) ∧
      totalCards (nextTurn
        (if ¬ (nextTurn s).hasEnded = true then drawCards sh 4 (nextTurn s)
          else nextTurn s)) = totalCards s
    split
    · refine ⟨nextTurn_WF _ (drawCards_WF sh 4 _ hWFn), ?_⟩
      rw [totalCards_nextTurn,
        drawCards_total sh HLen 4 _ (by rw [hWFn.1]; exact hWFn.2.1),
        totalCards_nextTurn]
    · exact ⟨nextTurn_WF _ hWFn, rfl⟩

theorem reshuffleDeck_WF (sh : Shuf) (s : Hand) (h : WF s) :
    WF (reshuffleDeck sh s) := by
  rcases reshuffleDeck_core sh s with ⟨p1, p2, p3, p4, _⟩
  obtain ⟨h1, h2, h3, h4⟩ := h
  exact ⟨by rw [p2, p1, h1], by rw [p3, p1]; exact h2, by rw [p4]; exact h3,
    by rw [p1]; exact h4⟩

theorem draw_preserves (sh : Shuf) (s t : Hand)
    (HLen : ∀ l, (sh l).length = l.length) (hWF : WF s)
    (h : draw sh s = .ok t) : WF t ∧ totalCards t = totalCards s := by
  obtain ⟨h1, h2, h3, h4⟩ := hWF
  simp only [draw] at h
  split at h
  · cases h
  · split at h
    · cases h
      exact ⟨⟨h1, h2, h3, h4⟩, rfl⟩
    · rename_i c rest hd
      cases h
      have hs1WF : WF { s with
          drawPile := rest,
          playerHands := s.playerHands.set s.currentPlayerIndex
            (s.playerHands.getD s.currentPlayerIndex [] ++ [c]) } :=
        ⟨by simpa using h1, h2, h3, h4⟩
      have hs1tot : totalCards { s with
          drawPile := rest,
          playerHands := s.playerHands.set s.currentPlayerIndex
            (s.playerHands.getD s.currentPlayerIndex [] ++ [c]) } = totalCards s := by
        simp only [totalCards]
        rw [sum_map_length_set_append s.playerHands s.currentPlayerIndex c
          (by rw [h1]; exact h2), hd]
        simp only [List.length_cons]
        omega
      have key : ∀ x : Hand, WF x → totalCards x = totalCards s →
          WF (if ¬ canPlayAny { x with lastActionByOthers := (List.range x.players.length).filter (fun i => i ≠ x.currentPlayerIndex) } = true then
              nextTurn { x with lastActionByOthers := (List.range x.players.length).filter (fun i => i ≠ x.currentPlayerIndex) }
            else { x with lastActionByOthers := (List.range x.players.length).filter (fun i => i ≠ x.currentPlayerIndex) }) ∧
          totalCards (if ¬ canPlayAny { x with lastActionByOthers := (List.range x.players.length).filter (fun i => i ≠ x.currentPlayerIndex) } = true then
              nextTurn { x with lastActionByOthers := (List.range x.players.length).filter (fun i => i ≠ x.currentPlayerIndex) }
            else { x with lastActionByOthers := (List.range x.players.length).filter (fun i => i ≠ x.currentPlayerIndex) }) = totalCards s := by
        intro x hx htx
        obtain ⟨x1, x2, x3, x4⟩ := hx
        constructor
        · split
          · exact nextTurn_WF _ ⟨x1, x2, x3, x4⟩
          · exact ⟨x1, x2, x3, x4⟩
        · split
          · rw [totalCards_nextTurn]; exact htx
          · exact htx
      refine key _ ?_ ?_
      · split
        · exact reshuffleDeck_WF sh _ hs1WF
        · exact hs1WF
      · split
        · rw [reshuffleDeck_total sh _ HLen]; exact hs1tot
        · exact hs1tot

theorem sayUno_preserves (p : Nat) (s t : Hand) (hWF : WF s)
    (h : sayUno p s = .ok t) : WF t ∧ totalCards t = totalCards s := by
  obtain ⟨h1, h2, h3, h4⟩ := hWF
  simp only [sayUno] at h
  split at h
  · cases h
  · split at h
    · cases h
    · split at h
      · cases h; exact ⟨⟨h1, h2, h3, h4⟩, rfl⟩
      · cases h; exact ⟨⟨h1, h2, h3, h4⟩, rfl⟩

theorem catchUnoFailure_preserves (sh : Shuf) (a b : Nat) (s t : Hand) (r : Bool)
    (HLen : ∀ l, (sh l).length = l.length) (hWF : WF s)
    (h : catchUnoFailure sh a b s = .ok (r, t)) :
    WF t ∧ totalCards t = totalCards s := by
  obtain ⟨h1, h2, h3, h4⟩ := hWF
  simp only [catchUnoFailure] at h
  split at h
  · cases h
  · split at h
    · cases h
    · rename_i hrange
      split at h
      · cases h; exact ⟨⟨h1, h2, h3, h4⟩, rfl⟩
      · split at h
        · cases h
          have hblt : b < s.players.length := by omega
          have hbWF : WF { s with currentPlayerIndex := b } := ⟨h1, hblt, h3, h4⟩
          rcases drawCards_core sh 4 { s with currentPlayerIndex := b } with
            ⟨p1, p2, _, p4, _⟩
          constructor
          · exact ⟨by rw [p2, p1]; simpa using h1, by rw [p1]; exact h2,
              by rw [p4]; exact h3, by rw [p1]; exact h4⟩
          · exact drawCards_total sh HLen 4 { s with currentPlayerIndex := b }
              (by rw [h1]; exact hblt)
        · cases h; exact ⟨⟨h1, h2, h3, h4⟩, rfl⟩

set_option maxHeartbeats 1000000 in
theorem play_preserves (sh : Shuf) (i : Nat) (col : Option Color) (s : Hand)
    (c : Card) (t : Hand) (HLen : ∀ l, (sh l).length = l.length) (hWF : WF s)
    (h : play sh i col s = .ok (c, t)) : WF t ∧ totalCards t = totalCards s := by
  obtain ⟨h1, h2, h3, h4⟩ := hWF
  simp only [play, currentHand] at h
  split at h
  · cases h
  · split at h
    · cases h
    · rename_i card hlook
      split at h
      · cases h
      · split at h
        · cases h
        · split at h
          · cases h
          · have hcur' : s.currentPlayerIndex < s.playerHands.length := by
              rw [h1]; exact h2
            have hi : i < (s.playerHands.getD s.currentPlayerIndex []).length :=
              (List.getElem?_eq_some.mp hlook).1
            have hsum := sum_map_length_set_eraseIdx s.playerHands
              s.currentPlayerIndex i hcur' hi
            have key1 : ∀ (card1 : Card) (uno : List Nat),
                WF { s with
                  playerHands := s.playerHands.set s.currentPlayerIndex
                    ((s.playerHands.getD s.currentPlayerIndex []).eraseIdx i),
                  discardPile := Deck.addToBottom card1 s.discardPile,
                  unoSaid := uno,
                  lastPlayedCard := some card1 } ∧
                totalCards { s with
                  playerHands := s.playerHands.set s.currentPlayerIndex
                    ((s.playerHands.getD s.currentPlayerIndex []).eraseIdx i),
                  discardPile := Deck.addToBottom card1 s.discardPile,
                  unoSaid := uno,
                  lastPlayedCard := some card1 } = totalCards s := by
              intro card1 uno
              refine ⟨⟨by simpa using h1, h2, h3, h4⟩, ?_⟩
              simp only [totalCards, Deck.addToBottom, List.length_append,
                List.length_cons, List.length_nil]
              omega
            have keyEnd : ∀ x : Hand, WF x → totalCards x = totalCards s →
                WF { x with
                  hasEnded := true,
                  winner := some x.currentPlayerIndex,
                  emittedEvents := x.emittedEvents ++
                    List.replicate x.onEndCallbacks x.currentPlayerIndex } ∧
                totalCards { x with
                  hasEnded := true,
                  winner := some x.currentPlayerIndex,
                  emittedEvents := x.emittedEvents ++
                    List.replicate x.onEndCallbacks x.currentPlayerIndex }
                  = totalCards s := by
              intro x hx htx
              exact ⟨⟨hx.1, hx.2.1, hx.2.2.1, hx.2.2.2⟩, htx⟩
            split at h
            · cases h
              refine keyEnd _ ?_ ?_
              · repeat' split
                all_goals
                  first
                    | exact (applyCardEffect_preserves sh _ _ HLen (key1 _ _).1).1
                    | exact (key1 _ _).1
              · repeat' split
                all_goals
                  first
                    | exact ((applyCardEffect_preserves sh _ _ HLen
                        (key1 _ _).1).2.trans (key1 _ _).2)
                    | exact (key1 _ _).2
            · cases h
              constructor
              · repeat' split
                all_goals exact (applyCardEffect_preserves sh _ _ HLen (key1 _ _).1).1
              · repeat' split
                all_goals exact ((applyCardEffect_preserves sh _ _ HLen
                    (key1 _ _).1).2.trans (key1 _ _).2)

theorem step_preserves (sh : Shuf) (s t : Hand)
    (HLen : ∀ l, (sh l).length = l.length) (hWF : WF s) (hst : Step sh s t) :
    WF t ∧ totalCards t = totalCards s := by
  cases hst with
  | ofDraw h => exact draw_preserves _ _ _ HLen hWF h
  | ofPlay i col c h => exact play_preserves _ _ _ _ _ _ HLen hWF h
  | ofSayUno p h => exact sayUno_preserves _ _ _ hWF h
  | ofCatch a b r h => exact catchUnoFailure_preserves _ _ _ _ _ _ HLen hWF h

theorem reachable_preserves (sh : Shuf) (s t : Hand)
    (HLen : ∀ l, (sh l).length = l.length) (hWF : WF s) (hr : Reachable sh s t) :
    WF t ∧ totalCards t = totalCards s := by
  induction hr with
  | refl => exact ⟨hWF, rfl⟩
  | tail _ hbc ih =>
    rcases ih with ⟨w, e⟩
    rcases step_preserves sh _ _ HLen w hbc with ⟨w2, e2⟩
    exact ⟨w2, e2.trans e⟩

/-! ### Facts about construction -/

theorem emod_toNat_lt (a : Int) (n : Nat) (hn : 0 < n) : (a % (n : Int)).toNat < n := by
  have h1 : (0 : Int) < n := by exact_mod_cast hn
  have h2 := Int.emod_lt_of_pos a h1
  have h3 := @Int.emod_nonneg a n (by omega)
  omega

theorem dealInitialCards_hands_length (n cpp : Nat) (deck : List Card) :
    (dealInitialCards n cpp deck).1.length = n := by
  induction n generalizing deck with
  | zero => rfl
  | succ n ih => simp [dealInitialCards, ih]

theorem dealInitialCards_sum (n cpp : Nat) (deck : List Card) :
    ((dealInitialCards n cpp deck).1.map List.length).sum
      + (dealInitialCards n cpp deck).2.length = deck.length := by
  induction n generalizing deck with
  | zero => simp [dealInitialCards]
  | succ n ih =>
    simp only [dealInitialCards, List.map_cons, List.sum_cons]
    have := ih (deck.drop cpp)
    simp only [List.length_take, List.length_drop] at this ⊢
    omega

theorem initialDeckCards_length : initialDeckCards.length = 108 := by decide

theorem setupLoop_found_length (sh : Shuf) (HLen : ∀ l, (sh l).length = l.length) :
    ∀ (fuel : Nat) (pile rest : List Card) (f : Card),
      setupLoop sh fuel pile = some (some f, rest) → rest.length + 1 = pile.length := by
  intro fuel
  induction fuel with
  | zero => intro pile rest f h; cases h
  | succ fuel ih =>
    intro pile rest f h
    cases pile with
    | nil => rw [setupLoop] at h; simp at h
    | cons c cs =>
      rw [setupLoop] at h
      split at h
      · have := ih _ _ _ h
        rw [HLen] at this
        simp only [Deck.addToBottom, List.length_append, List.length_cons,
          List.length_nil] at this ⊢
        omega
      · cases h
        simp

theorem setupLoop_found_nonwild (sh : Shuf) :
    ∀ (fuel : Nat) (pile rest : List Card) (f : Card),
      setupLoop sh fuel pile = some (some f, rest) →
        ¬ (f.type = .WILD ∨ f.type = .WILDDRAW) := by
  intro fuel
  induction fuel with
  | zero => intro pile rest f h; cases h
  | succ fuel ih =>
    intro pile rest f h
    cases pile with
    | nil => rw [setupLoop] at h; simp at h
    | cons c cs =>
      rw [setupLoop] at h
      split at h
      · exact ih _ _ _ h
      · rename_i hnw
        cases h
        exact hnw

theorem mkHand_start (sh : Shuf) (players : List String) (dealer cpp k fuel : Nat)
    (h0 : Hand) (HLen : ∀ l, (sh l).length = l.length)
    (hmk : mkHand sh players dealer cpp k fuel = some h0)
    (hfirst : h0.lastPlayedCard.isSome = true) :
    WF h0 ∧ totalCards h0 = 108 := by
  simp only [mkHand] at hmk
  split at hmk
  · cases hmk
  · rename_i hvalid
    have hn2 : 2 ≤ players.length := by omega
    split at hmk
    · cases hmk
    · cases hmk
      simp at hfirst
    · rename_i f rest hloop
      cases hmk
      have hlen108 : (sh initialDeckCards).length = 108 := by
        rw [HLen]; exact initialDeckCards_length
      have hrest : rest.length + 1
          = (dealInitialCards players.length cpp (sh initialDeckCards)).2.length :=
        setupLoop_found_length sh HLen fuel _ rest f hloop
      have hsum := dealInitialCards_sum players.length cpp (sh initialDeckCards)
      have hhands := dealInitialCards_hands_length players.length cpp (sh initialDeckCards)
      have hs0WF : WF
          { players := players
            dealer := dealer
            discardPile := [f]
            drawPile := rest
            playerHands := (dealInitialCards players.length cpp (sh initialDeckCards)).1
            currentPlayerIndex := (dealer + 1) % players.length
            direction := 1
            hasEnded := false
            winner := none
            onEndCallbacks := k
            emittedEvents := []
            unoSaid := []
            lastActionByOthers := []
            lastPlayedCard := some f } :=
        ⟨by simpa using hhands, Nat.mod_lt _ (by omega), Or.inl rfl, hn2⟩
      have hs0tot : totalCards
          { players := players
            dealer := dealer
            discardPile := [f]
            drawPile := rest
            playerHands := (dealInitialCards players.length cpp (sh initialDeckCards)).1
            currentPlayerIndex := (dealer + 1) % players.length
            direction := 1
            hasEnded := false
            winner := none
            onEndCallbacks := k
            emittedEvents := []
            unoSaid := []
            lastActionByOthers := []
            lastPlayedCard := some f } = 108 := by
        simp only [totalCards, List.length_cons, List.length_nil]
        omega
      split
      · exact ⟨⟨hs0WF.1, emod_toNat_lt _ _ (by omega), Or.inr rfl, hn2⟩, hs0tot⟩
      · split
        · exact ⟨nextTurn_WF _ hs0WF, by rw [totalCards_nextTurn]; exact hs0tot⟩
        · split
          · refine ⟨nextTurn_WF _ (drawCards_WF sh 2 _ hs0WF), ?_⟩
            rw [totalCards_nextTurn,
              drawCards_total sh HLen 2 _ (by rw [hs0WF.1]; exact hs0WF.2.1)]
            exact hs0tot
          · exact ⟨hs0WF, hs0tot⟩

/-! ### Claim theorems -/

/-- C1: the spec claims that the reshuffle-on-exhaustion holds out the
last-played discard top and restores it as the sole card of the rebuilt
discard pile, keeping the top of the discard pile equal to
`lastPlayedCard`.  The code instead holds out the BOTTOM of the discard
pile (`deal()` removes the front of the array while the discard top is
its back): in the concrete two-player trace below, RED 5 is the setup
card, RED 7 is then played (so `lastPlayedCard` is RED 7 and the
discard top is RED 7), and the draw that empties the draw pile triggers
a reshuffle after which the discard pile holds only RED 5 while the
last-played RED 7 has been shuffled into the draw pile. -/
theorem reshuffle_keeps_bottom_not_lastPlayedCard :
    ((mkHand craftSh1 ["A", "B"] 0 53 0 1).bind fun h0 =>
      (play craftSh1 0 none h0).toOption.bind fun pr =>
        (draw craftSh1 pr.2).toOption.map fun s2 =>
          (Deck.top s2.discardPile, s2.lastPlayedCard, s2.drawPile))
      = some (some red5, some red7, [red7]) ∧ red5 ≠ red7 :=
  ⟨by decide, by decide⟩

/-- C2 counterexample: when the initial deal consumes the entire deck
(two players with 54 cards each), the setup loop finds no first card
and the placeholder discard pile created by `new Deck()` — a full fresh
108-card deck — survives, so the Hand holds 216 cards, not 108. -/
theorem card_conservation_violated_by_phantom_discard :
    (mkHand id ["A", "B"] 0 54 0 1).map totalCards = some 216 := by decide

/-- C2 (amended): for every Hand built by the constructor whose setup
placed a first discard card (equivalently, whose `lastPlayedCard` is
set after construction), with a length-preserving shuffler, every state
reachable by draw / play / sayUno / catchUnoFailure calls — including
ones triggering reshuffles — holds exactly 108 cards across the player
hands, the draw pile and the discard pile. -/
theorem card_conservation (sh : Shuf) (players : List String)
    (dealer cpp k fuel : Nat) (h0 h : Hand)
    (HLen : ∀ l, (sh l).length = l.length)
    (hmk : mkHand sh players dealer cpp k fuel = some h0)
    (hfirst : h0.lastPlayedCard.isSome = true)
    (hr : Reachable sh h0 h) :
    totalCards h = 108 := by
  rcases mkHand_start sh players dealer cpp k fuel h0 HLen hmk hfirst with ⟨hWF, htot⟩
  rcases reachable_preserves sh h0 h HLen hWF hr with ⟨_, e⟩
  exact e.trans htot

/-- Witness for C2: the default two-player seven-card hand built with
the identity shuffler satisfies the conservation invariant. -/
theorem card_conservation_witness : totalCards wH0 = 108 :=
  card_conservation id ["A", "B"] 0 7 0 1 wH0 wH0 (fun _ => rfl)
    (by decide) (by decide) Relation.ReflTransGen.refl

/-- C4: the spec claims that a play emptying the current player's hand
ends the hand with the winner equal to that player, with the DRAW /
WILD-DRAW forced draw still applied first, and that every end callback
fires with the correct winner.  The forced draw does happen, but
`applyCardEffect` advances `currentPlayerIndex` by two seats before
`_winner` is read, so with three players the reported winner — and the
value every callback receives — is the player two seats after the
actual winner: below player 0 plays their last card, a BLUE DRAW, the
next player draws 2 (hand sizes end as 0, 3, 1), and the hand ends with
`winner` reported as player 2 and a single callback event `[2]`. -/
theorem winner_misreported_after_draw_finish :
    ((mkHand craftSh4 ["A", "B", "C"] 2 1 1 1).bind fun h0 =>
      (play craftSh4 0 none h0).toOption.map fun pr =>
        (h0.currentPlayerIndex, pr.2.hasEnded, pr.2.winner, pr.2.emittedEvents,
          pr.2.playerHands.map List.length))
      = some (0, true, some 2, [2], [0, 3, 1]) := by decide

/-- C9: once a Hand has ended it stays ended forever: `playerInTurn`
returns none, every mutating call (draw, play, sayUno, catchUnoFailure)
fails with the terminated-hand error leaving the state unchanged, and
consequently no successful step leaves the state, so every reachable
future state is the state itself and still ended. -/
theorem ended_hand_is_terminal (sh : Shuf) (s : Hand) (hE : s.hasEnded = true) :
    playerInTurn s = none ∧
    draw sh s = .error .handEnded ∧
    (∀ (i : Nat) (col : Option Color), play sh i col s = .error .handEnded) ∧
    (∀ p : Nat, sayUno p s = .error .handEnded) ∧
    (∀ a b : Nat, catchUnoFailure sh a b s = .error .handEnded) ∧
    (∀ t : Hand, Reachable sh s t → t = s ∧ t.hasEnded = true) := by
  have hpl : playerInTurn s = none := by simp [playerInTurn, hE]
  have hdraw : draw sh s = .error .handEnded := by simp [draw, hE]
  have hplay : ∀ (i : Nat) (col : Option Color),
      play sh i col s = .error .handEnded := by
    intro i col; simp [play, hE]
  have hsay : ∀ p : Nat, sayUno p s = .error .handEnded := by
    intro p; simp [sayUno, hE]
  have hcatch : ∀ a b : Nat, catchUnoFailure sh a b s = .error .handEnded := by
    intro a b; simp [catchUnoFailure, hE]
  refine ⟨hpl, hdraw, hplay, hsay, hcatch, ?_⟩
  intro t hr
  have hstep : ∀ u, ¬ Step sh s u := by
    intro u hst
    cases hst with
    | ofDraw h => rw [hdraw] at h; cases h
    | ofPlay i col c h => rw [hplay i col] at h; cases h
    | ofSayUno p h => rw [hsay p] at h; cases h
    | ofCatch a b r h => rw [hcatch a b] at h; cases h
  rcases Relation.ReflTransGen.cases_head hr with rfl | ⟨u, hu, _⟩
  · exact ⟨rfl, hE⟩
  · exact absurd hu (hstep u)

/-- Witness for C9 at the concrete ended hand `wEndedHand`. -/
theorem ended_hand_is_terminal_witness :
    playerInTurn wEndedHand = none ∧ draw id wEndedHand = .error .handEnded :=
  ⟨(ended_hand_is_terminal id wEndedHand (by decide)).1,
   (ended_hand_is_terminal id wEndedHand (by decide)).2.1⟩

/-- C10 counterexample: the claim that for any deck with at least two
cards `top()` is never the card `deal()` would return fails on a deck
holding two equal cards: there `top()` and the card `deal()` returns
coincide. -/
theorem deck_top_deal_coincide_on_duplicates :
    2 ≤ ([red5, red5] : List Card).length ∧
    Deck.top [red5, red5] = (Deck.deal [red5, red5]).1 := by decide

/-- C10 (amended): `addToBottom` and `top` operate on the back of a
deck while `deal` removes the front: after `addToBottom c` the peek
`top()` returns `c`, `deal()` removes and returns the head (oldest
element), and for any deck with at least two cards whose front and back
cards differ, `top()` is not the card `deal()` would return. -/
theorem deck_top_back_deal_front (l : List Card) (c : Card) :
    Deck.top (Deck.addToBottom c l) = some c ∧
    Deck.deal l = (l.head?, l.tail) ∧
    (2 ≤ l.length → l.head? ≠ l.getLast? → Deck.top l ≠ (Deck.deal l).1) := by
  refine ⟨?_, rfl, ?_⟩
  · simp [Deck.top, Deck.addToBottom]
  · intro _ hne
    simp only [Deck.top, Deck.deal]
    exact fun h => hne (h ▸ rfl)

/-- Witness for C10 on the concrete deck RED 5 then RED 7. -/
theorem deck_top_back_deal_front_witness :
    Deck.top (Deck.addToBottom blue3 [red5, red7]) = some blue3 ∧
    2 ≤ ([red5, red7] : List Card).length ∧
    Deck.top [red5, red7] ≠ (Deck.deal [red5, red7]).1 :=
  ⟨(deck_top_back_deal_front [red5, red7] blue3).1, by decide,
   (deck_top_back_deal_front [red5, red7] blue3).2.2 (by decide) (by decide)⟩

/-- C7: on an in-progress Hand, play fails with the illegal-play error
when the looked-up card does not satisfy `isValidPlay`, with the
missing-color error when a WILD or WILD-DRAW is played without a chosen
color, and with the extraneous-color error when a chosen color
accompanies a card that already has a color; in each failure case the
state the caller observes is unchanged. -/
theorem play_error_cases (sh : Shuf) (s : Hand) (i : Nat) (col : Option Color)
    (card : Card) (hE : s.hasEnded = false)
    (hlook : (currentHand s)[i]? = some card) :
    (isValidPlay s card = false →
      play sh i col s = .error .invalidPlay ∧
      playResultState s (play sh i col s) = s) ∧
    ((card.type = .WILD ∨ card.type = .WILDDRAW) → col = none →
      isValidPlay s card = true →
      play sh i col s = .error .mustChooseColor ∧
      playResultState s (play sh i col s) = s) ∧
    (card.color.isSome = true → col.isSome = true → isValidPlay s card = true →
      play sh i col s = .error .cannotChooseColor ∧
      playResultState s (play sh i col s) = s) := by
  have hres : ∀ e : HandError, play sh i col s = .error e →
      playResultState s (play sh i col s) = s := by
    intro e he; rw [he]; rfl
  refine ⟨?_, ?_, ?_⟩
  · intro hv
    have he : play sh i col s = .error .invalidPlay := by
      simp [play, hE, hlook, hv]
    exact ⟨he, hres _ he⟩
  · intro hw hcol hv
    have he : play sh i col s = .error .mustChooseColor := by
      simp [play, hE, hlook, hv, hcol, hw]
    exact ⟨he, hres _ he⟩
  · intro hc hcol hv
    have hcolne : ¬ col = none := by
      cases col
      · simp at hcol
      · simp
    have he : play sh i col s = .error .cannotChooseColor := by
      simp [play, hE, hlook, hv, hc, hcol, hcolne]
    exact ⟨he, hres _ he⟩

/-- Witness for C7: on the concrete hand `wHand`, playing the held
BLUE DRAW against the RED 5 discard top is an illegal play and is
rejected with the state unchanged. -/
theorem play_error_cases_witness :
    play id 1 none wHand = .error .invalidPlay ∧
    playResultState wHand (play id 1 none wHand) = wHand :=
  (play_error_cases id wHand 1 none blueDraw (by decide) (by decide)).1 (by decide)

/-- C5: with a last played card `L` in place, `isValidPlay` returns
true exactly under the legality relation the specification words:
WILD always legal; WILD-DRAW legal iff the current player holds no card
whose color equals the color of `L`; NUMBERED against NUMBERED legal
iff same number or same color; any other card legal iff its color
equals the color of `L` or its type equals the type of `L`. -/
theorem isValidPlay_matches_spec (s : Hand) (L card : Card)
    (hL : s.lastPlayedCard = some L) :
    (isValidPlay s card = true ↔ legalSpec (currentHand s) L card) := by
  unfold isValidPlay legalSpec
  rw [hL]
  obtain ⟨ct, cc, cn⟩ := card
  obtain ⟨Lt, Lc, Ln⟩ := L
  cases ct <;> cases Lt <;>
    simp [List.any_eq_true] <;>
    tauto

/-- Witness for C5: on the concrete hand `wHand` with RED 5 as the last
played card, playing RED 7 is valid and matches the worded relation. -/
theorem isValidPlay_matches_spec_witness :
    (isValidPlay wHand red7 = true ↔ legalSpec (currentHand wHand) red5 red7) ∧
    isValidPlay wHand red7 = true :=
  ⟨isValidPlay_matches_spec wHand red5 red7 (by decide), by decide⟩

theorem setupLoop_id_allwild_none :
    ∀ (fuel : Nat) (pile : List Card), pile ≠ [] →
      (∀ c ∈ pile, c.type = .WILD ∨ c.type = .WILDDRAW) →
      setupLoop id fuel pile = none := by
  intro fuel
  induction fuel with
  | zero => intro pile _ _; rfl
  | succ fuel ih =>
    intro pile hne hall
    cases pile with
    | nil => exact absurd rfl hne
    | cons c cs =>
      rw [setupLoop, if_pos (hall c (by simp))]
      apply ih
      · simp [Deck.addToBottom]
      · intro x hx
        apply hall
        simp only [id_eq, Deck.addToBottom, List.mem_append,
          List.mem_singleton] at hx
        simp only [List.mem_cons]
        tauto

/-- C3 counterexample: with two players, 50 cards per player and the
identity shuffler, the 100 dealt cards are the entire non-wild part of
the canonical deck, the remaining draw pile consists of the 8 WILD and
WILD-DRAW cards only, and the setup loop cycles them forever: no
amount of fuel makes the constructor return, so construction does not
terminate for every valid configuration. -/
theorem construction_may_not_terminate :
    ¬ constructionTerminates id ["A", "B"] 0 50 := by
  rintro ⟨fuel, h, hmk⟩
  have hloop : setupLoop id fuel
      (dealInitialCards (["A", "B"] : List String).length 50 (id initialDeckCards)).2
      = none :=
    setupLoop_id_allwild_none fuel _ (by decide) (by decide)
  simp only [mkHand] at hmk
  rw [if_neg (by decide)] at hmk
  rw [hloop] at hmk
  cases hmk

theorem setupLoop_id_rotate :
    ∀ (ws : List Card) (f : Card) (rest : List Card) (extra : Nat),
      (∀ w ∈ ws, w.type = .WILD ∨ w.type = .WILDDRAW) →
      ¬ (f.type = .WILD ∨ f.type = .WILDDRAW) →
      setupLoop id (ws.length + 1 + extra) (ws ++ f :: rest)
        = some (some f, rest ++ ws) := by
  intro ws
  induction ws with
  | nil =>
    intro f rest extra _ hf
    have he : ([] : List Card).length + 1 + extra = extra + 1 := by simp; omega
    rw [he]
    simp only [List.nil_append]
    rw [setupLoop, if_neg hf]
    simp
  | cons w ws ih =>
    intro f rest extra hws hf
    have he : (w :: ws).length + 1 + extra = (ws.length + 1 + extra) + 1 := by
      simp [List.length_cons]
      omega
    rw [he]
    simp only [List.cons_append]
    rw [setupLoop, if_pos (hws w (by simp))]
    have harr : id (Deck.addToBottom w (ws ++ f :: rest))
        = ws ++ f :: (rest ++ [w]) := by
      simp [Deck.addToBottom]
    rw [harr, ih f (rest ++ [w]) extra (fun x hx => hws x (by simp [hx])) hf]
    simp

/-- C3 (amended): the setup loop need not terminate for every shuffler
and cardsPerPlayer, but whenever the draw pile remaining after the deal
contains at least one non-wild card and the shuffler leaves piles
unchanged (the identity), construction succeeds within pile-size-plus-
one loop iterations, the first discard is placed, and the top of the
discard pile after setup is that first card and is never WILD or
WILD-DRAW; moreover for EVERY shuffler, whenever the setup loop does
complete with a first card, that card is not WILD or WILD-DRAW. -/
theorem setup_terminates_with_nonwild_top (players : List String)
    (dealer cpp k : Nat) (h2 : 2 ≤ players.length) (h10 : players.length ≤ 10)
    (hnw : ∃ c ∈ postDealPile id players.length cpp,
      ¬ (c.type = .WILD ∨ c.type = .WILDDRAW)) :
    (∃ h f, mkHand id players dealer cpp k
        ((postDealPile id players.length cpp).length + 1) = some h ∧
      h.lastPlayedCard = some f ∧ Deck.top h.discardPile = some f ∧
      ¬ (f.type = .WILD ∨ f.type = .WILDDRAW)) ∧
    (∀ (sh : Shuf) (fuel : Nat) (pile rest : List Card) (f : Card),
      setupLoop sh fuel pile = some (some f, rest) →
        ¬ (f.type = .WILD ∨ f.type = .WILDDRAW)) := by
  constructor
  · set p : Card → Bool := fun c => decide (c.type = .WILD ∨ c.type = .WILDDRAW)
      with hp
    have hsplit := List.takeWhile_append_dropWhile p (postDealPile id players.length cpp)
    have hdw : (postDealPile id players.length cpp).dropWhile p ≠ [] := by
      intro hnil
      obtain ⟨c0, hm, hc0⟩ := hnw
      have := (List.dropWhile_eq_nil_iff.mp hnil) c0 hm
      rw [hp] at this
      simp only [decide_eq_true_eq] at this
      exact hc0 this
    obtain ⟨f, rest, hfr⟩ : ∃ f rest,
        (postDealPile id players.length cpp).dropWhile p = f :: rest := by
      cases hcase : (postDealPile id players.length cpp).dropWhile p with
      | nil => exact absurd hcase hdw
      | cons f rest => exact ⟨f, rest, rfl⟩
    have hfnw : ¬ (f.type = .WILD ∨ f.type = .WILDDRAW) := by
      have := List.head?_dropWhile_not p (postDealPile id players.length cpp)
      rw [hfr] at this
      simp only [List.head?_cons] at this
      rw [hp] at this
      simpa using this
    have hws : ∀ w ∈ (postDealPile id players.length cpp).takeWhile p,
        w.type = .WILD ∨ w.type = .WILDDRAW := by
      intro w hw
      have := List.mem_takeWhile_imp hw
      rw [hp] at this
      simpa using this
    have htkle : ((postDealPile id players.length cpp).takeWhile p).length
        ≤ (postDealPile id players.length cpp).length := by
      have hlensplit := congrArg List.length hsplit
      simp only [List.length_append] at hlensplit
      omega
    have hlen : ((postDealPile id players.length cpp).takeWhile p).length + 1 +
        ((postDealPile id players.length cpp).length -
          ((postDealPile id players.length cpp).takeWhile p).length)
        = (postDealPile id players.length cpp).length + 1 := by omega
    have hrot := setupLoop_id_rotate
      ((postDealPile id players.length cpp).takeWhile p) f rest
      ((postDealPile id players.length cpp).length -
        ((postDealPile id players.length cpp).takeWhile p).length) hws hfnw
    rw [hlen] at hrot
    rw [hfr] at hsplit
    rw [hsplit] at hrot
    simp only [postDealPile] at hrot
    simp only [postDealPile, mkHand]
    rw [if_neg (by omega)]
    rw [hrot]
    refine ⟨_, f, rfl, ?_⟩
    split
    · exact ⟨rfl, rfl, hfnw⟩
    · split
      · exact ⟨rfl, rfl, hfnw⟩
      · split
        · refine ⟨?_, ?_, hfnw⟩
          · exact (drawCards_core id 2 _).2.2.2.2.2.2
          · rw [show (nextTurn (drawCards id 2 _)).discardPile
                = (drawCards id 2 _).discardPile from rfl]
            rw [drawCards_discard_single id 2 _ f rfl]
            rfl
        · exact ⟨rfl, rfl, hfnw⟩
  · exact fun sh fuel pile rest f h => setupLoop_found_nonwild sh fuel pile rest f h

/-- Witness for C3 (amended) at the default two-player seven-card
configuration with the identity shuffler. -/
theorem setup_terminates_with_nonwild_top_witness :
    ∃ h f, mkHand id ["A", "B"] 0 7 0
        ((postDealPile id (["A", "B"] : List String).length 7).length + 1) = some h ∧
      h.lastPlayedCard = some f ∧ Deck.top h.discardPile = some f ∧
      ¬ (f.type = .WILD ∨ f.type = .WILDDRAW) :=
  (setup_terminates_with_nonwild_top ["A", "B"] 0 7 0 (by decide) (by decide)
    (by decide)).1

theorem catchUnoFailure_false_when_said (sh : Shuf) (a b : Nat) (s2 : Hand)
    (hE2 : s2.hasEnded = false) (hb : b < s2.players.length)
    (hcont : s2.unoSaid.contains b = true) :
    ∀ (r : Bool) (t2 : Hand), catchUnoFailure sh a b s2 = .ok (r, t2) → r = false := by
  intro r t2 h
  simp only [catchUnoFailure] at h
  rw [if_neg (by simp [hE2])] at h
  rw [if_neg (by omega)] at h
  split at h
  · cases h; rfl
  · rw [if_neg (fun hcc => hcc.2 hcont)] at h
    cases h; rfl

/-- C8: on an in-progress Hand with an in-range accused index,
`catchUnoFailure` returns true exactly when the current turn holder is
the player immediately after the accused in the current direction, the
accused holds exactly one card, and the accused has not declared UNO;
on success the accused draws 4 cards (exactly 4 whenever the draw pile
holds at least 4), the current player is restored, the accused is
marked UNO-declared so an immediate repeat call returns false; and in
every other case the call returns false with no state change. -/
theorem catchUnoFailure_contract (sh : Shuf) (accuser accused : Nat) (s : Hand)
    (hE : s.hasEnded = false) (hacc : accused < s.players.length)
    (hhands : s.playerHands.length = s.players.length) :
    CatchUnoSpec sh accuser accused s := by
  have hge : ¬ accused ≥ s.players.length := by omega
  have hbase : catchUnoFailure sh accuser accused s =
      (if s.currentPlayerIndex ≠ nextIdx s.players.length accused s.direction then
        .ok (false, s)
      else if (s.playerHands.getD accused []).length = 1 ∧
          ¬ s.unoSaid.contains accused then
        .ok (true,
          { drawCards sh 4 { s with currentPlayerIndex := accused } with
            currentPlayerIndex := s.currentPlayerIndex,
            unoSaid :=
              if (drawCards sh 4 { s with currentPlayerIndex := accused
                }).unoSaid.contains accused then
                (drawCards sh 4 { s with currentPlayerIndex := accused }).unoSaid
              else accused ::
                (drawCards sh 4 { s with currentPlayerIndex := accused }).unoSaid })
      else .ok (false, s)) := by
    simp [catchUnoFailure, hE, hge]
  have hend2 : (drawCards sh 4 { s with currentPlayerIndex := accused }).hasEnded
      = false := by
    rw [(drawCards_core sh 4 _).2.2.2.2.1]
    exact hE
  have hpl2 : (drawCards sh 4 { s with currentPlayerIndex := accused }).players
      = s.players := (drawCards_core sh 4 _).1
  refine ⟨?_, ?_, ?_, ?_⟩
  · intro b t hbt
    rw [hbase] at hbt
    split at hbt
    · rename_i hwin
      cases hbt
      simp only [Bool.false_eq_true, false_iff]
      exact fun hcontra => hwin (by rw [hcontra.1])
    · rename_i hwin
      have hwineq : s.currentPlayerIndex
          = nextIdx s.players.length accused s.direction := by
        by_contra hh
        exact hwin hh
      split at hbt
      · rename_i hcond
        cases hbt
        simp only [true_iff]
        exact ⟨hwineq, hcond.1, by simpa using hcond.2⟩
      · rename_i hcond
        cases hbt
        simp only [Bool.false_eq_true, false_iff]
        refine fun hc => hcond ⟨hc.2.1, ?_⟩
        rw [hc.2.2]
        exact Bool.false_ne_true
  · intro t ht
    rw [hbase] at ht
    split at ht
    · simp at ht
    · split at ht
      · rename_i hcond
        cases ht
        have hcontains :
            (if (drawCards sh 4 { s with currentPlayerIndex := accused
              }).unoSaid.contains accused = true then
              (drawCards sh 4 { s with currentPlayerIndex := accused }).unoSaid
            else accused ::
              (drawCards sh 4 { s with currentPlayerIndex := accused }).unoSaid
              ).contains accused = true := by
          split
          · rename_i hcc
            exact hcc
          · simp
        refine ⟨rfl, hcontains, ?_, ?_⟩
        · intro hpile
          have hg := drawCards_hand_growth sh 4
            { s with currentPlayerIndex := accused }
            (by simpa [hhands] using hacc) (by simpa using hpile)
          simpa using hg
        · intro b2 t2 h2
          refine catchUnoFailure_false_when_said sh accuser accused _ ?_ ?_ ?_ b2 t2 h2
          · exact hend2
          · simpa [hpl2] using hacc
          · exact hcontains
      · simp at ht
  · intro t ht
    rw [hbase] at ht
    split at ht
    · cases ht; rfl
    · split at ht
      · simp at ht
      · cases ht; rfl
  · rw [hbase]
    split
    · exact ⟨false, s, rfl⟩
    · split
      · exact ⟨true, _, rfl⟩
      · exact ⟨false, s, rfl⟩


/-- Witness for C8 at the concrete hand `wHand`: player 1 holds one
card, has not said UNO, and player 0 (right after them) is in turn. -/
theorem catchUnoFailure_contract_witness :
    wHand.hasEnded = false ∧ 1 < wHand.players.length ∧ CatchUnoSpec id 0 1 wHand :=
  ⟨by decide, by decide,
    catchUnoFailure_contract id 0 1 wHand (by decide) (by decide) (by decide)⟩

theorem applyCardEffect_advance (sh : Shuf) (card1 : Card) (x s : Hand)
    (hpl : x.players = s.players)
    (hcur : x.currentPlayerIndex = s.currentPlayerIndex)
    (hdir : x.direction = s.direction)
    (hdraw : x.drawPile = s.drawPile)
    (hEnd : x.hasEnded = false)
    (hhandslen : x.playerHands.length = s.players.length)
    (hmid : ∀ j, j ≠ s.currentPlayerIndex →
      x.playerHands.getD j [] = s.playerHands.getD j [])
    (h2 : s.currentPlayerIndex < s.players.length)
    (h3 : s.direction = 1 ∨ s.direction = -1)
    (h4 : 2 ≤ s.players.length) :
    PlayAdvanceSpec s (applyCardEffect sh card1 x) card1 := by
  have hmidlt : nextIdx s.players.length s.currentPlayerIndex s.direction
      < s.players.length := nextIdx_lt _ _ _ (by omega)
  have hmidne : nextIdx s.players.length s.currentPlayerIndex s.direction
      ≠ s.currentPlayerIndex := nextIdx_ne _ _ _ h3 h2 h4
  have hnx : (nextTurn x).currentPlayerIndex
      = nextIdx s.players.length s.currentPlayerIndex s.direction := by
    simp only [nextTurn, hpl, hcur, hdir]
  obtain ⟨ct, cc, cn⟩ := card1
  unfold PlayAdvanceSpec
  cases ct with
  | NUMBERED =>
    show (nextTurn x).players = s.players ∧ _
    refine ⟨hpl, ?_, ?_, ?_, ?_, ?_⟩
    · exact fun _ => ⟨hdir, hnx⟩
    · intro h; simp at h
    · intro h; simp at h
    · intro h; simp at h
    · intro h; simp at h
  | WILD =>
    show (nextTurn x).players = s.players ∧ _
    refine ⟨hpl, ?_, ?_, ?_, ?_, ?_⟩
    · exact fun _ => ⟨hdir, hnx⟩
    · intro h; simp at h
    · intro h; simp at h
    · intro h; simp at h
    · intro h; simp at h
  | SKIP =>
    show (nextTurn (nextTurn x)).players = s.players ∧ _
    refine ⟨hpl, ?_, ?_, ?_, ?_, ?_⟩
    · intro h; simp at h
    · refine fun _ => ⟨hdir, ?_⟩
      show nextIdx (nextTurn x).players.length (nextTurn x).currentPlayerIndex
          (nextTurn x).direction = _
      rw [hnx]
      show nextIdx x.players.length _ x.direction = _
      rw [hpl, hdir]
    · intro h; simp at h
    · intro h; simp at h
    · intro h; simp at h
  | REVERSE =>
    rw [show applyCardEffect sh { type := .REVERSE, color := cc, number := cn } x
        = nextTurn (if ({ x with direction := -x.direction } : Hand).players.length = 2
          then nextTurn { x with direction := -x.direction }
          else { x with direction := -x.direction }) from rfl]
    refine ⟨?_, ?_, ?_, ?_, ?_, ?_⟩
    · split
      · exact hpl
      · exact hpl
    · intro h; simp at h
    · intro h; simp at h
    · refine fun _ => ⟨?_, ?_, ?_⟩
      · split
        · show -x.direction = -s.direction
          rw [hdir]
        · show -x.direction = -s.direction
          rw [hdir]
      · intro hgt
        have hne2 : ¬ ({ x with direction := -x.direction } : Hand).players.length = 2 := by
          show ¬ x.players.length = 2
          rw [hpl]; omega
        rw [if_neg hne2]
        show nextIdx x.players.length x.currentPlayerIndex (-x.direction) = _
        rw [hpl, hcur, hdir]
      · intro heq2
        have he2 : ({ x with direction := -x.direction } : Hand).players.length = 2 := by
          show x.players.length = 2
          rw [hpl]; exact heq2
        rw [if_pos he2]
        show nextIdx (nextTurn { x with direction := -x.direction }).players.length
          (nextTurn { x with direction := -x.direction }).currentPlayerIndex
          (nextTurn { x with direction := -x.direction }).direction = _
        have hinner : (nextTurn { x with direction := -x.direction }).currentPlayerIndex
            = nextIdx 2 s.currentPlayerIndex (-s.direction) := by
          show nextIdx x.players.length x.currentPlayerIndex (-x.direction) = _
          rw [hpl, hcur, hdir, heq2]
        rw [hinner]
        show nextIdx x.players.length _ (-x.direction) = _
        rw [hpl, hdir, heq2]
    · intro h; simp at h
    · intro h; simp at h
  | DRAW =>
    have hcond : ¬ (nextTurn x).hasEnded = true := by
      show ¬ x.hasEnded = true
      rw [hEnd]; exact Bool.false_ne_true
    rw [show applyCardEffect sh { type := .DRAW, color := cc, number := cn } x
        = nextTurn (if ¬ (nextTurn x).hasEnded = true then drawCards sh 2 (nextTurn x)
          else nextTurn x) from rfl,
      if_pos hcond]
    refine ⟨?_, ?_, ?_, ?_, ?_, ?_⟩
    · show (drawCards sh 2 (nextTurn x)).players = s.players
      rw [(drawCards_core sh 2 _).1]
      exact hpl
    · intro h; simp at h
    · intro h; simp at h
    · intro h; simp at h
    · refine fun _ => ⟨?_, ?_, ?_⟩
      · show (drawCards sh 2 (nextTurn x)).direction = s.direction
        rw [(drawCards_core sh 2 _).2.2.2.1]
        exact hdir
      · show nextIdx (drawCards sh 2 (nextTurn x)).players.length
          (drawCards sh 2 (nextTurn x)).currentPlayerIndex
          (drawCards sh 2 (nextTurn x)).direction = _
        rw [(drawCards_core sh 2 _).1, (drawCards_core sh 2 _).2.2.1,
          (drawCards_core sh 2 _).2.2.2.1, hnx]
        show nextIdx x.players.length _ x.direction = _
        rw [hpl, hdir]
      · intro hpile
        have hg := drawCards_hand_growth sh 2 (nextTurn x)
          (by rw [hnx]; show _ < x.playerHands.length; rw [hhandslen]; exact hmidlt)
          (by show 2 ≤ x.drawPile.length; rw [hdraw]; exact hpile)
        rw [hnx] at hg
        have hx : (nextTurn x).playerHands.getD
            (nextIdx s.players.length s.currentPlayerIndex s.direction) []
            = s.playerHands.getD
              (nextIdx s.players.length s.currentPlayerIndex s.direction) [] :=
          hmid _ hmidne
        rw [hx] at hg
        exact hg
    · intro h; simp at h
  | WILDDRAW =>
    have hcond : ¬ (nextTurn x).hasEnded = true := by
      show ¬ x.hasEnded = true
      rw [hEnd]; exact Bool.false_ne_true
    rw [show applyCardEffect sh { type := .WILDDRAW, color := cc, number := cn } x
        = nextTurn (if ¬ (nextTurn x).hasEnded = true then drawCards sh 4 (nextTurn x)
          else nextTurn x) from rfl,
      if_pos hcond]
    refine ⟨?_, ?_, ?_, ?_, ?_, ?_⟩
    · show (drawCards sh 4 (nextTurn x)).players = s.players
      rw [(drawCards_core sh 4 _).1]
      exact hpl
    · intro h; simp at h
    · intro h; simp at h
    · intro h; simp at h
    · intro h; simp at h
    · refine fun _ => ⟨?_, ?_, ?_⟩
      · show (drawCards sh 4 (nextTurn x)).direction = s.direction
        rw [(drawCards_core sh 4 _).2.2.2.1]
        exact hdir
      · show nextIdx (drawCards sh 4 (nextTurn x)).players.length
          (drawCards sh 4 (nextTurn x)).currentPlayerIndex
          (drawCards sh 4 (nextTurn x)).direction = _
        rw [(drawCards_core sh 4 _).1, (drawCards_core sh 4 _).2.2.1,
          (drawCards_core sh 4 _).2.2.2.1, hnx]
        show nextIdx x.players.length _ x.direction = _
        rw [hpl, hdir]
      · intro hpile
        have hg := drawCards_hand_growth sh 4 (nextTurn x)
          (by rw [hnx]; show _ < x.playerHands.length; rw [hhandslen]; exact hmidlt)
          (by show 4 ≤ x.drawPile.length; rw [hdraw]; exact hpile)
        rw [hnx] at hg
        have hx : (nextTurn x).playerHands.getD
            (nextIdx s.players.length s.currentPlayerIndex s.direction) []
            = s.playerHands.getD
              (nextIdx s.players.length s.currentPlayerIndex s.direction) [] :=
          hmid _ hmidne
        rw [hx] at hg
        exact hg


/-- C6: every successful play that does not end the hand advances the
turn from the playing player by exactly one step for NUMBERED and WILD,
two steps for SKIP, one step in the flipped direction for REVERSE with
three or more players and two steps for REVERSE with two players, and
two steps for DRAW and WILD-DRAW with the skipped intermediate player
forced to draw 2 or 4 cards (exactly that many whenever the draw pile
holds enough). -/
theorem play_turn_advance (sh : Shuf) (i : Nat) (col : Option Color) (s : Hand)
    (c : Card) (t : Hand) (hWF : WF s)
    (hp : play sh i col s = .ok (c, t)) (hne : t.hasEnded = false) :
    PlayAdvanceSpec s t c := by
  obtain ⟨h1, h2, h3, h4⟩ := hWF
  simp only [play, currentHand] at hp
  split at hp
  · cases hp
  · rename_i hEE
    have hEfalse : s.hasEnded = false := by simpa using hEE
    split at hp
    · cases hp
    · rename_i card hlook
      split at hp
      · cases hp
      · split at hp
        · cases hp
        · split at hp
          · cases hp
          · split at hp
            · cases hp
              simp at hne
            · cases hp
              repeat' split
              all_goals
                refine applyCardEffect_advance sh _ _ s rfl rfl rfl rfl hEfalse
                  (by simpa using h1) (fun j hj => getD_set_other _ _ _ _ hj) h2 h3 h4

/-- Witness for C6: the concrete NUMBERED play on `wHand`. -/
theorem play_turn_advance_witness :
    play id 0 none wHand = .ok (wC6res.1, wC6res.2) ∧
    PlayAdvanceSpec wHand wC6res.2 wC6res.1 :=
  ⟨by rfl, play_turn_advance id 0 none wHand wC6res.1 wC6res.2
    ⟨by decide, by decide, Or.inl (by decide), by decide⟩ (by rfl) (by decide)⟩

end UnoDos
